import Mathlib

/-!
# Verification of the AI HR Policy Agent RAG pipeline

Shallow embedding of the repository's core pipeline:
reranker (`src/rag/reranker.py`), prompt registry (`src/rag/prompts.py`),
orchestrator chain (`src/rag/chain.py`), HTTP handlers (`src/api/server.py`),
Slack handler (`src/slack/bot.py`) and the chunking policy used by
`src/rag/ingest.py`.

External collaborators (the cross-encoder scorer, the vector store, the
generation model, wall-clock time) are passed in as explicit function
parameters, so each embedded operation is a pure, executable function of
its inputs and of those oracles.
-/

namespace HRAgent

/-- `src/config.py` `Settings`: the pipeline-relevant configuration fields
with their declared defaults (environment variables may override them,
so theorems quantify over a `Settings` value). -/
structure Settings where
  chunk_size : Nat := 1000
  chunk_overlap : Nat := 200
  top_k_retrieval : Nat := 20
  top_k_rerank : Nat := 5
deriving Repr, DecidableEq

/-- A LangChain `Document`: page content plus a string-keyed metadata map,
embedded as an association list (Python dict keys are unique; `metaGet`
mirrors `dict.get(key, default)`). -/
structure Doc where
  page_content : String
  metadata : List (String × String)
deriving Repr, DecidableEq

/-- Python `doc.metadata.get(key, default)`. -/
def metaGet (m : List (String × String)) (key dflt : String) : String :=
  match m.lookup key with
  | some v => v
  | none => dflt

/-! ## Stable descending sort

CPython's `list.sort(key=…, reverse=True)` is a stable sort: keys end up
non-increasing and elements with equal keys keep their original relative
order.  That behaviour is embedded by a stable insertion sort; the
stability, permutation and sortedness lemmas below establish that it is
exactly the stable descending sort, hence a faithful embedding. -/

/-- Insert `x` into `l`, placing it before the first element whose key is
`≤ key x` (so, among equal keys, the inserted — originally earlier —
element comes first). -/
def insertDesc (key : α → Int) (x : α) : List α → List α
  | [] => [x]
  | y :: ys => if key y ≤ key x then x :: y :: ys else y :: insertDesc key x ys

/-- Stable descending insertion sort by `key`. -/
def sortDescBy (key : α → Int) : List α → List α
  | [] => []
  | x :: xs => insertDesc key x (sortDescBy key xs)

theorem insertDesc_perm (key : α → Int) (x : α) (l : List α) :
    List.Perm (insertDesc key x l) (x :: l) := by
  induction l with
  | nil => simp [insertDesc]
  | cons y ys ih =>
    simp only [insertDesc]
    split
    · exact List.Perm.refl _
    · exact ((ih.cons y).trans (List.Perm.swap x y ys))

theorem sortDescBy_perm (key : α → Int) (l : List α) :
    List.Perm (sortDescBy key l) l := by
  induction l with
  | nil => simp [sortDescBy]
  | cons x xs ih =>
    exact (insertDesc_perm key x (sortDescBy key xs)).trans (ih.cons x)

theorem mem_insertDesc {key : α → Int} {x a : α} {l : List α} :
    a ∈ insertDesc key x l ↔ a = x ∨ a ∈ l := by
  rw [(insertDesc_perm key x l).mem_iff, List.mem_cons]

theorem insertDesc_pairwise (key : α → Int) (x : α) (l : List α)
    (h : l.Pairwise (fun a b => key b ≤ key a)) :
    (insertDesc key x l).Pairwise (fun a b => key b ≤ key a) := by
  induction l with
  | nil => simp [insertDesc]
  | cons y ys ih =>
    simp only [insertDesc]
    rcases List.pairwise_cons.mp h with ⟨hy, hys⟩
    split
    · rename_i hxy
      refine List.pairwise_cons.mpr ⟨?_, h⟩
      intro b hb
      rcases List.mem_cons.mp hb with rfl | hb
      · exact hxy
      · exact le_trans (hy b hb) hxy
    · rename_i hxy
      push_neg at hxy
      refine List.pairwise_cons.mpr ⟨?_, ih hys⟩
      intro b hb
      rcases mem_insertDesc.mp hb with rfl | hb
      · exact le_of_lt hxy
      · exact hy b hb

theorem sortDescBy_pairwise (key : α → Int) (l : List α) :
    (sortDescBy key l).Pairwise (fun a b => key b ≤ key a) := by
  induction l with
  | nil => simp [sortDescBy]
  | cons x xs ih => exact insertDesc_pairwise key x _ ih

theorem insertDesc_filter_eq (key : α → Int) (x : α) (l : List α)
    (c : Int) (hx : key x = c) :
    (insertDesc key x l).filter (fun a => key a = c)
      = x :: l.filter (fun a => key a = c) := by
  induction l with
  | nil => simp [insertDesc, List.filter, hx]
  | cons y ys ih =>
    simp only [insertDesc]
    split
    · simp [List.filter_cons, hx]
    · rename_i hxy
      push_neg at hxy
      have hy : ¬ (key y = c) := by
        intro hc
        rw [hx] at hxy
        rw [hc] at hxy
        exact absurd hxy (lt_irrefl c)
      simp only [List.filter_cons]
      rw [if_neg (by simpa using hy), if_neg (by simpa using hy)]
      exact ih

theorem insertDesc_filter_ne (key : α → Int) (x : α) (l : List α)
    (c : Int) (hx : key x ≠ c) :
    (insertDesc key x l).filter (fun a => key a = c)
      = l.filter (fun a => key a = c) := by
  induction l with
  | nil => simp [insertDesc, List.filter, hx]
  | cons y ys ih =>
    simp only [insertDesc]
    split
    · simp only [List.filter_cons]
      rw [if_neg (by simpa using hx)]
    · simp only [List.filter_cons]
      by_cases hy : key y = c
      · rw [if_pos (by simpa using hy), if_pos (by simpa using hy), ih]
      · rw [if_neg (by simpa using hy), if_neg (by simpa using hy)]
        exact ih

/-- Stability: for every key value `c`, sorting does not change the
relative order (or multiplicity) of the elements whose key is `c`. -/
theorem sortDescBy_stable (key : α → Int) (l : List α) (c : Int) :
    (sortDescBy key l).filter (fun a => key a = c)
      = l.filter (fun a => key a = c) := by
  induction l with
  | nil => simp [sortDescBy]
  | cons x xs ih =>
    simp only [sortDescBy]
    by_cases hx : key x = c
    · rw [insertDesc_filter_eq key x _ c hx, ih, List.filter_cons,
        if_pos (by simpa using hx)]
    · rw [insertDesc_filter_ne key x _ c hx, ih, List.filter_cons,
        if_neg (by simpa using hx)]

theorem sortDescBy_length (key : α → Int) (l : List α) :
    (sortDescBy key l).length = l.length :=
  (sortDescBy_perm key l).length_eq

/-! ## Reranker (`src/rag/reranker.py`) -/

/-- Python `arg or default` for an `int | None` parameter: `None` and the
falsy `0` both select the default. -/
def pyOrDefault (arg : Option Nat) (dflt : Nat) : Nat :=
  match arg with
  | none => dflt
  | some 0 => dflt
  | some (k + 1) => k + 1

/-- One entry of `BERTReranker.rerank`'s result:
`{"document": doc, "score": float(score), "rank": i + 1}`.
Scores are embedded as `Int` (the claims about the reranker are purely
order-theoretic, so only the linear order on scores matters). -/
structure ScoredDoc where
  document : Doc
  score : Int
  rank : Nat
deriving Repr, DecidableEq

/-- `BERTReranker.rerank(query, documents, top_k)`.  The cross-encoder
`self.model.predict` is the oracle `model`, scoring a (query, page_content)
pair.  Mirrors the source: default `top_k`, early return on empty input,
score all pairs, stable sort descending by score (`list.sort(key=…,
reverse=True)`), assign ranks `i + 1`, truncate to `top_k`. -/
def rerank (st : Settings) (model : String → String → Int) (query : String)
    (documents : List Doc) (top_k : Option Nat) : List ScoredDoc :=
  let topk := pyOrDefault top_k st.top_k_rerank
  if documents.isEmpty then []
  else
    let scored := documents.map
      (fun d => ScoredDoc.mk d (model query d.page_content) 0)
    let sorted := sortDescBy (fun s => s.score) scored
    let ranked := sorted.enum.map (fun p => { p.2 with rank := p.1 + 1 })
    ranked.take topk

/-- `BERTReranker.rerank_to_documents`: rerank and keep only the documents. -/
def rerank_to_documents (st : Settings) (model : String → String → Int)
    (query : String) (documents : List Doc) (top_k : Option Nat) : List Doc :=
  (rerank st model query documents top_k).map (fun item => item.document)

/-- `VectorStoreManager.similarity_search(query, k)`: the ChromaDB search is
the oracle `store`; the embedding records only the defaulting of `k`
(`k = k or settings.top_k_retrieval`) and the delegation. -/
def similarity_search (st : Settings) (store : String → Nat → List Doc)
    (query : String) (k : Option Nat) : List Doc :=
  store query (pyOrDefault k st.top_k_retrieval)

/-- The scored list built from the input documents, before sorting. -/
def scoredOf (model : String → String → Int) (query : String)
    (documents : List Doc) : List ScoredDoc :=
  documents.map (fun d => ScoredDoc.mk d (model query d.page_content) 0)

/-- The rank-annotated, fully sorted list (before truncation). -/
def rankedOf (model : String → String → Int) (query : String)
    (documents : List Doc) : List ScoredDoc :=
  ((sortDescBy (fun s => s.score) (scoredOf model query documents)).enum).map
    (fun p => { p.2 with rank := p.1 + 1 })

theorem rerank_eq_take (st : Settings) (model : String → String → Int)
    (query : String) (documents : List Doc) (top_k : Option Nat)
    (h : documents ≠ []) :
    rerank st model query documents top_k
      = (rankedOf model query documents).take (pyOrDefault top_k st.top_k_rerank) := by
  simp [rerank, rankedOf, scoredOf, h]

theorem scoredOf_map_document (model : String → String → Int) (query : String)
    (documents : List Doc) :
    (scoredOf model query documents).map (fun s => s.document) = documents := by
  simp [scoredOf, List.map_map, Function.comp_def]

theorem rankedOf_map_document (model : String → String → Int) (query : String)
    (documents : List Doc) :
    (rankedOf model query documents).map (fun s => s.document)
      = (sortDescBy (fun s => s.score) (scoredOf model query documents)).map
          (fun s => s.document) := by
  set sorted := sortDescBy (fun s : ScoredDoc => s.score) (scoredOf model query documents)
    with hsorted
  rw [rankedOf, ← hsorted, List.map_map]
  have h : ((fun s : ScoredDoc => s.document) ∘
        fun p : Nat × ScoredDoc => { p.2 with rank := p.1 + 1 })
      = ((fun s : ScoredDoc => s.document) ∘ Prod.snd) := rfl
  rw [h, ← List.map_map, List.enum_map_snd]

theorem rankedOf_map_score (model : String → String → Int) (query : String)
    (documents : List Doc) :
    (rankedOf model query documents).map (fun s => s.score)
      = (sortDescBy (fun s => s.score) (scoredOf model query documents)).map
          (fun s => s.score) := by
  set sorted := sortDescBy (fun s : ScoredDoc => s.score) (scoredOf model query documents)
    with hsorted
  rw [rankedOf, ← hsorted, List.map_map]
  have h : ((fun s : ScoredDoc => s.score) ∘
        fun p : Nat × ScoredDoc => { p.2 with rank := p.1 + 1 })
      = ((fun s : ScoredDoc => s.score) ∘ Prod.snd) := rfl
  rw [h, ← List.map_map, List.enum_map_snd]

theorem rankedOf_length (model : String → String → Int) (query : String)
    (documents : List Doc) :
    (rankedOf model query documents).length = documents.length := by
  simp [rankedOf, scoredOf, sortDescBy_length]

theorem rankedOf_map_rank (model : String → String → Int) (query : String)
    (documents : List Doc) :
    (rankedOf model query documents).map (fun s => s.rank)
      = List.range' 1 documents.length := by
  have h : (rankedOf model query documents).map (fun s => s.rank)
      = ((sortDescBy (fun s : ScoredDoc => s.score)
            (scoredOf model query documents)).enum.map Prod.fst).map (1 + ·) := by
    rw [rankedOf, List.map_map, List.map_map]
    refine List.map_congr_left ?_
    intro p _
    simp [Function.comp_def, Nat.add_comm]
  rw [h, List.enum_map_fst, ← List.range'_eq_map_range]
  simp [sortDescBy_length, scoredOf]

theorem mem_scoredOf_score (model : String → String → Int) (query : String)
    (documents : List Doc) :
    ∀ s ∈ scoredOf model query documents,
      s.score = model query s.document.page_content := by
  intro s hs
  rcases List.mem_map.mp hs with ⟨d, _, rfl⟩
  rfl

theorem mem_rankedOf_score (model : String → String → Int) (query : String)
    (documents : List Doc) :
    ∀ s ∈ rankedOf model query documents,
      s.score = model query s.document.page_content := by
  intro s hs
  rcases List.mem_map.mp hs with ⟨p, hp, rfl⟩
  have h2 : p.2 ∈ sortDescBy (fun s : ScoredDoc => s.score)
      (scoredOf model query documents) := by
    have := List.mem_map_of_mem Prod.snd hp
    rwa [List.enum_map_snd] at this
  have h3 : p.2 ∈ scoredOf model query documents :=
    (sortDescBy_perm _ _).mem_iff.mp h2
  exact mem_scoredOf_score model query documents p.2 h3

theorem rankedOf_pairwise (model : String → String → Int) (query : String)
    (documents : List Doc) :
    (rankedOf model query documents).Pairwise (fun a b => b.score ≤ a.score) := by
  have hmap : ((rankedOf model query documents).map (fun s => s.score)).Pairwise
      (fun a b : Int => b ≤ a) := by
    rw [rankedOf_map_score]
    exact List.pairwise_map.mpr (sortDescBy_pairwise _ _)
  exact List.pairwise_map.mp hmap

theorem take_range' (s n k : Nat) :
    (List.range' s n).take k = List.range' s (min k n) := by
  induction n generalizing s k with
  | zero => simp
  | succ m ih =>
    cases k with
    | zero => simp
    | succ j =>
      rw [List.range'_succ, List.take_succ_cons, ih, ← List.range'_succ]
      simp [Nat.succ_min_succ]

theorem pyOrDefault_pos {k : Nat} (d : Nat) (hk : 1 ≤ k) :
    pyOrDefault (some k) d = k := by
  cases k with
  | zero => exact absurd hk (by simp)
  | succ j => rfl

theorem rankedOf_filter_map_document (model : String → String → Int)
    (query : String) (documents : List Doc) (c : Int) :
    ((rankedOf model query documents).map (fun s => s.document)).filter
        (fun d => model query d.page_content = c)
      = documents.filter (fun d => model query d.page_content = c) := by
  rw [rankedOf_map_document]
  set key := fun s : ScoredDoc => s.score
  set sorted := sortDescBy key (scoredOf model query documents) with hsorted
  rw [List.filter_map]
  have h1 : sorted.filter
        ((fun d => decide (model query d.page_content = c)) ∘ fun s => s.document)
      = sorted.filter (fun s => key s = c) := by
    refine List.filter_congr ?_
    intro s hs
    have hsc : s ∈ scoredOf model query documents :=
      (sortDescBy_perm _ _).mem_iff.mp (hsorted ▸ hs)
    have := mem_scoredOf_score model query documents s hsc
    simp [Function.comp_def, key, this]
  rw [h1, hsorted, sortDescBy_stable]
  have h2 : (scoredOf model query documents).filter (fun s => key s = c)
      = (scoredOf model query documents).filter
          ((fun d => decide (model query d.page_content = c)) ∘ fun s => s.document) := by
    refine List.filter_congr ?_
    intro s hs
    have := mem_scoredOf_score model query documents s hs
    simp [Function.comp_def, key, this]
  rw [h2, ← List.filter_map, scoredOf_map_document]

/-- **C2.** For every query, every non-empty candidate list of `n` chunks and
every `top_k ≥ 1`, `rerank` returns `min(top_k, n)` results that are
(i) exactly that many, (ii) a sub-permutation of the input documents,
(iii) sorted non-increasing by score, (iv) scored by the relevance model,
(v) the highest-scoring ones (everything left out scores no higher than
anything kept), (vi) carrying dense 1-based ranks `1..min(top_k, n)`,
(vii) with score-ties kept in original retrieval order (for every score
value, the kept documents with that score are a prefix of the input
documents with that score, in input order), and (viii) the call is
deterministic — re-invocation with identical inputs gives the identical
result (the embedding is a pure function, so this conjunct is definitional). -/
theorem C2_rerank_spec (st : Settings) (model : String → String → Int)
    (query : String) (documents : List Doc) (k : Nat)
    (hne : documents ≠ []) (hk : 1 ≤ k) :
    (rerank st model query documents (some k)).length = min k documents.length
    ∧ List.Subperm
        ((rerank st model query documents (some k)).map (fun s => s.document))
        documents
    ∧ (rerank st model query documents (some k)).Pairwise
        (fun a b => b.score ≤ a.score)
    ∧ (∀ s ∈ rerank st model query documents (some k),
        s.score = model query s.document.page_content)
    ∧ (∃ dropped : List Doc,
        List.Perm
          ((rerank st model query documents (some k)).map (fun s => s.document)
            ++ dropped) documents
        ∧ ∀ a ∈ rerank st model query documents (some k), ∀ b ∈ dropped,
            model query b.page_content ≤ a.score)
    ∧ (rerank st model query documents (some k)).map (fun s => s.rank)
        = List.range' 1 (min k documents.length)
    ∧ (∀ c : Int,
        List.IsPrefix
          (((rerank st model query documents (some k)).map
              (fun s => s.document)).filter
            (fun d => model query d.page_content = c))
          (documents.filter (fun d => model query d.page_content = c)))
    ∧ rerank st model query documents (some k)
        = rerank st model query documents (some k) := by
  have htop : pyOrDefault (some k) st.top_k_rerank = k :=
    pyOrDefault_pos st.top_k_rerank hk
  have hout : rerank st model query documents (some k)
      = (rankedOf model query documents).take k := by
    rw [rerank_eq_take st model query documents (some k) hne, htop]
  have hperm : List.Perm
      ((rankedOf model query documents).map (fun s => s.document)) documents := by
    rw [rankedOf_map_document]
    have h1 := (sortDescBy_perm (fun s : ScoredDoc => s.score)
      (scoredOf model query documents)).map (fun s => s.document)
    rw [scoredOf_map_document] at h1
    exact h1
  refine ⟨?_, ?_, ?_, ?_, ?_, ?_, ?_, rfl⟩
  · rw [hout, List.length_take, rankedOf_length]
  · rw [hout, List.map_take]
    exact ((List.take_sublist k _).subperm).trans hperm.subperm
  · rw [hout]
    exact (rankedOf_pairwise model query documents).sublist (List.take_sublist k _)
  · intro s hs
    rw [hout] at hs
    exact mem_rankedOf_score model query documents s (List.mem_of_mem_take hs)
  · refine ⟨((rankedOf model query documents).drop k).map (fun s => s.document),
      ?_, ?_⟩
    · rw [hout, List.map_take, List.map_drop, List.take_append_drop]
      exact hperm
    · intro a ha b hb
      rcases List.mem_map.mp hb with ⟨sb, hsb, rfl⟩
      have hpair := rankedOf_pairwise model query documents
      rw [← List.take_append_drop k (rankedOf model query documents)] at hpair
      have hrel := (List.pairwise_append.mp hpair).2.2
      rw [hout] at ha
      have hscore := hrel a ha sb hsb
      have hsbmem : sb ∈ rankedOf model query documents :=
        List.mem_of_mem_drop hsb
      rw [← mem_rankedOf_score model query documents sb hsbmem]
      exact hscore
  · rw [hout, List.map_take, rankedOf_map_rank, take_range']
  · intro c
    have hpref : List.IsPrefix
        (((rankedOf model query documents).take k).map (fun s => s.document))
        ((rankedOf model query documents).map (fun s => s.document)) := by
      rw [List.map_take]
      exact List.take_prefix k _
    have := hpref.filter (fun d => decide (model query d.page_content = c))
    rw [rankedOf_filter_map_document model query documents c] at this
    rw [hout]
    exact this

/-- Witness for C2 at a concrete input with a score tie: three documents,
`top_k = 2`, a model that ties the first two documents. -/
theorem C2_rerank_spec_witness :
    ([Doc.mk "alpha" [], Doc.mk "beta" [], Doc.mk "gamma" []] ≠ ([] : List Doc))
    ∧ (1 ≤ 2)
    ∧ (rerank {} (fun _ s => if s = "gamma" then 7 else 3) "q"
        [Doc.mk "alpha" [], Doc.mk "beta" [], Doc.mk "gamma" []]
        (some 2)).length
          = min 2 [Doc.mk "alpha" [], Doc.mk "beta" [], Doc.mk "gamma" []].length
    ∧ (rerank {} (fun _ s => if s = "gamma" then 7 else 3) "q"
        [Doc.mk "alpha" [], Doc.mk "beta" [], Doc.mk "gamma" []]
        (some 2)).map (fun s => s.rank)
          = List.range' 1
              (min 2 [Doc.mk "alpha" [], Doc.mk "beta" [], Doc.mk "gamma" []].length) :=
  ⟨by decide, by decide,
    (C2_rerank_spec {} (fun _ s => if s = "gamma" then 7 else 3) "q"
      [Doc.mk "alpha" [], Doc.mk "beta" [], Doc.mk "gamma" []] 2
      (by decide) (by decide)).1,
    (C2_rerank_spec {} (fun _ s => if s = "gamma" then 7 else 3) "q"
      [Doc.mk "alpha" [], Doc.mk "beta" [], Doc.mk "gamma" []] 2
      (by decide) (by decide)).2.2.2.2.2.1⟩

/-- **C6.** Reranking an empty candidate list returns an empty list, for every
query and every `top_k`, without invoking the relevance model: the result is
the same for any two scorer oracles `model` and `model2` (the early return
`if not documents: return []` fires before `self.model.predict` is reached). -/
theorem C6_rerank_empty (st : Settings) (model model2 : String → String → Int)
    (query : String) (top_k : Option Nat) :
    rerank st model query [] top_k = []
    ∧ rerank st model query [] top_k = rerank st model2 query [] top_k := by
  constructor
  · simp [rerank]
  · simp [rerank]

/-- **C9.** Passing `0` as the result-count parameter selects the configured
default instead of zero results, because `top_k = top_k or settings.top_k_rerank`
(resp. `k = k or settings.top_k_retrieval`) treats `0` as falsy:
`rerank(query, candidates, top_k=0)` behaves exactly like
`top_k=settings.top_k_rerank`, returning `min(settings.top_k_rerank, n)`
candidates — non-empty when the candidate list is non-empty and the default is
positive — and `similarity_search(query, k=0)` queries the store with
`k = settings.top_k_retrieval`. -/
theorem C9_falsy_zero_selects_default (st : Settings)
    (model : String → String → Int) (store : String → Nat → List Doc)
    (query : String) (documents : List Doc)
    (hne : documents ≠ []) (hpos : 1 ≤ st.top_k_rerank) :
    rerank st model query documents (some 0)
        = rerank st model query documents (some st.top_k_rerank)
    ∧ (rerank st model query documents (some 0)).length
        = min st.top_k_rerank documents.length
    ∧ rerank st model query documents (some 0) ≠ []
    ∧ similarity_search st store query (some 0) = store query st.top_k_retrieval := by
  have hdef : pyOrDefault (some 0) st.top_k_rerank = st.top_k_rerank := rfl
  have hself : pyOrDefault (some st.top_k_rerank) st.top_k_rerank = st.top_k_rerank := by
    cases h : st.top_k_rerank with
    | zero => rfl
    | succ j => rfl
  have heq : rerank st model query documents (some 0)
      = rerank st model query documents (some st.top_k_rerank) := by
    rw [rerank_eq_take st model query documents (some 0) hne,
      rerank_eq_take st model query documents (some st.top_k_rerank) hne,
      hdef, hself]
  have hlen : (rerank st model query documents (some 0)).length
      = min st.top_k_rerank documents.length := by
    rw [rerank_eq_take st model query documents (some 0) hne, hdef,
      List.length_take, rankedOf_length]
  refine ⟨heq, hlen, ?_, rfl⟩
  intro hempty
  have h0 : (rerank st model query documents (some 0)).length = 0 := by
    rw [hempty]; rfl
  rw [hlen] at h0
  rcases Nat.min_eq_zero_iff.mp h0 with h | h
  · omega
  · exact hne (List.eq_nil_of_length_eq_zero h)

/-- Witness for C9: two candidates, default `top_k_rerank = 5`. -/
theorem C9_falsy_zero_selects_default_witness :
    ([Doc.mk "a" [], Doc.mk "b" []] ≠ ([] : List Doc))
    ∧ (1 ≤ Settings.top_k_rerank {})
    ∧ rerank {} (fun _ _ => 0) "q" [Doc.mk "a" [], Doc.mk "b" []] (some 0) ≠ [] :=
  ⟨by decide, by decide,
    (C9_falsy_zero_selects_default {} (fun _ _ => 0) (fun _ _ => []) "q"
      [Doc.mk "a" [], Doc.mk "b" []] (by decide) (by decide)).2.2.1⟩

/-! ## Prompt registry (`src/rag/prompts.py`) -/

/-- A chat prompt template: a list of (role, content) messages whose content
may hold the f-string placeholders `\x7bcontext\x7d` and `\x7bquestion\x7d`
(mirrors `ChatPromptTemplate.from_messages`). -/
structure ChatPromptTemplate where
  messages : List (String × String)
deriving Repr, DecidableEq

/-- Replace every occurrence of the (non-empty) pattern `pat` in a character
list by `rep`, left to right (the substitution step of template formatting). -/
def replaceSub (pat rep : List Char) : List Char → List Char
  | [] => []
  | c :: cs =>
    if pat ≠ [] ∧ pat.isPrefixOf (c :: cs) then
      rep ++ replaceSub pat rep (cs.drop (pat.length - 1))
    else
      c :: replaceSub pat rep cs
termination_by l => l.length
decreasing_by
  · simp only [List.length_cons, List.length_drop]
    omega
  · simp

/-- Substitute the two template variables into one message content. -/
def substVars (content context question : String) : String :=
  String.mk (replaceSub "\x7bquestion\x7d".toList question.toList
    (replaceSub "\x7bcontext\x7d".toList context.toList content.toList))

/-- `prompt.format_messages(context=…, question=…)`. -/
def formatMessages (t : ChatPromptTemplate) (context question : String) :
    List (String × String) :=
  t.messages.map (fun m => (m.1, substVars m.2 context question))

/-- `pat` occurs somewhere in `l`. -/
def containsSub (pat : List Char) : List Char → Bool
  | [] => pat.isEmpty
  | c :: cs => pat.isPrefixOf (c :: cs) || containsSub pat cs

/-- The template mentions the placeholder `\x7bv\x7d` in some message, so
formatting accepts (and consumes) the variable `v`. -/
def acceptsVar (t : ChatPromptTemplate) (v : String) : Bool :=
  t.messages.any (fun m =>
    containsSub ("\x7b" ++ v ++ "\x7d").toList m.2.toList)

/-- `prompt_v1` (registered as "v1.0"): baseline QA prompt, system message
verbatim from the source plus the human turn `\x7bquestion\x7d`. -/
def prompt_v1 : ChatPromptTemplate :=
  { messages :=
      [("system", "You are an AI HR Policy Assistant. Your role is to answer employee\nquestions accurately based ONLY on the provided company policy documents.\n\nRULES:\n1. Answer ONLY based on the provided context. Do NOT make up information.\n2. If the answer is not in the context, say: \"I don\x27t have information about\n   this in our current policy documents. Please contact HR directly.\"\n3. Always cite which document your answer comes from.\n4. Be professional, empathetic, and clear.\n5. If a policy has specific conditions or exceptions, mention them.\n\nCONTEXT FROM POLICY DOCUMENTS:\n{context}"),
       ("human", "{question}")] }

/-- `prompt_v2` (registered as "v2.0"): enhanced prompt with structured
output and confidence tier, verbatim from the source. -/
def prompt_v2 : ChatPromptTemplate :=
  { messages :=
      [("system", "You are an AI HR Policy Assistant for answering employee questions\nabout company policies. You must ONLY use the provided context documents.\n\nINSTRUCTIONS:\n1. Read the context carefully and identify relevant policy sections.\n2. Provide a clear, structured answer.\n3. Rate your confidence: HIGH (directly stated in policy), MEDIUM (inferred\n   from policy), or LOW (not clearly covered).\n4. Always cite the source document and section.\n5. If the context doesn\x27t contain the answer, clearly state that and\n   suggest contacting HR.\n\nFORMAT YOUR RESPONSE AS:\n**Answer:** [Your answer here]\n\n**Source:** [Document name, page/section if available]\n\n**Confidence:** [HIGH / MEDIUM / LOW]\n\nCONTEXT FROM POLICY DOCUMENTS:\n{context}"),
       ("human", "{question}")] }

/-- `PROMPT_VERSIONS`: the registry populated by the `@register_prompt`
decorators, in registration (top-to-bottom) order.  The builders are pure,
so the registry stores the built templates directly. -/
def PROMPT_VERSIONS : List (String × ChatPromptTemplate) :=
  [("v1.0", prompt_v1), ("v2.0", prompt_v2)]

/-- `list_prompt_versions()`. -/
def list_prompt_versions (registry : List (String × ChatPromptTemplate)) :
    List String :=
  registry.map (fun p => p.1)

/-- A single-quote character, for building the `KeyError` message text. -/
def squote : String := String.mk [Char.ofNat 39]

/-- `get_prompt(version)`: look the version up; on a missing key raise
`KeyError` with a message listing the available versions.  The function
returns the (unchanged) registry alongside the result to make explicit that
lookup never mutates the registry. -/
def get_prompt (registry : List (String × ChatPromptTemplate))
    (version : String) :
    Except String ChatPromptTemplate × List (String × ChatPromptTemplate) :=
  match registry.lookup version with
  | some tpl => (Except.ok tpl, registry)
  | none =>
      (Except.error ("Prompt version " ++ squote ++ version ++ squote
        ++ " not found. Available: "
        ++ String.intercalate ", " (registry.map (fun p => p.1))), registry)

set_option maxRecDepth 40000 in
/-- **C7.** Prompt registry lookup: `get("v1.0")` and `get("v2.0")` both
succeed and each returned template accepts the `\x7bcontext\x7d` and
`\x7bquestion\x7d` variables; for every version string not registered, the
lookup fails with a `KeyError` whose message lists the available versions
("v1.0, v2.0"), and in every case the registry is returned unchanged. -/
theorem C7_prompt_registry (v : String)
    (hv : v ∉ list_prompt_versions PROMPT_VERSIONS) :
    (get_prompt PROMPT_VERSIONS "v1.0").1 = Except.ok prompt_v1
    ∧ acceptsVar prompt_v1 "context" = true
    ∧ acceptsVar prompt_v1 "question" = true
    ∧ (get_prompt PROMPT_VERSIONS "v2.0").1 = Except.ok prompt_v2
    ∧ acceptsVar prompt_v2 "context" = true
    ∧ acceptsVar prompt_v2 "question" = true
    ∧ String.intercalate ", " (list_prompt_versions PROMPT_VERSIONS)
        = "v1.0, v2.0"
    ∧ (get_prompt PROMPT_VERSIONS v).1
        = Except.error ("Prompt version " ++ squote ++ v ++ squote
            ++ " not found. Available: "
            ++ String.intercalate ", " (list_prompt_versions PROMPT_VERSIONS))
    ∧ (get_prompt PROMPT_VERSIONS v).2 = PROMPT_VERSIONS
    ∧ (get_prompt PROMPT_VERSIONS "v1.0").2 = PROMPT_VERSIONS
    ∧ (get_prompt PROMPT_VERSIONS "v2.0").2 = PROMPT_VERSIONS := by
  have hv2 : ¬ (v = "v1.0" ∨ v = "v2.0") := by
    intro h
    apply hv
    simp only [list_prompt_versions, PROMPT_VERSIONS, List.map]
    rcases h with h | h
    · rw [h]; exact List.mem_cons_self _ _
    · rw [h]; exact List.mem_cons_of_mem _ (List.mem_cons_self _ _)
  have hne1 : (v == "v1.0") = false :=
    beq_eq_false_iff_ne.mpr (fun h => hv2 (Or.inl h))
  have hne2 : (v == "v2.0") = false :=
    beq_eq_false_iff_ne.mpr (fun h => hv2 (Or.inr h))
  have hlookup : PROMPT_VERSIONS.lookup v = none := by
    simp [PROMPT_VERSIONS, List.lookup, hne1, hne2]
  refine ⟨rfl, rfl, rfl, rfl, rfl, rfl, rfl, ?_, ?_, rfl, rfl⟩
  · simp [get_prompt, hlookup, list_prompt_versions]
  · simp [get_prompt, hlookup]

set_option maxRecDepth 40000 in
/-- Witness for C7 at the concrete unregistered version "v9.9". -/
theorem C7_prompt_registry_witness :
    ("v9.9" ∉ list_prompt_versions PROMPT_VERSIONS)
    ∧ (get_prompt PROMPT_VERSIONS "v9.9").1
        = Except.error ("Prompt version " ++ squote ++ "v9.9" ++ squote
            ++ " not found. Available: "
            ++ String.intercalate ", " (list_prompt_versions PROMPT_VERSIONS)) :=
  ⟨by decide, (C7_prompt_registry "v9.9" (by decide)).2.2.2.2.2.2.2.1⟩

/-! ## Orchestrator chain (`src/rag/chain.py`) -/

/-- One entry of `QueryResult.sources`, produced by
`HRPolicyChain._extract_sources`. -/
structure SourceEntry where
  document : String
  page : String
  file_type : String
deriving Repr, DecidableEq

/-- The generation model's reply: `response.content` plus the optional
`usage_metadata["total_tokens"]`. -/
structure LLMResponse where
  content : String
  usage_total_tokens : Option Nat
deriving Repr, DecidableEq

/-- The `QueryResult` dataclass, with the source's field defaults.
`latency_ms` is embedded as `Nat` (elapsed wall-clock milliseconds are an
oracle input; only "recorded verbatim" matters to the claims). -/
structure QueryResult where
  answer : String
  sources : List SourceEntry := []
  query : String := ""
  latency_ms : Nat := 0
  tokens_used : Nat := 0
  chunks_retrieved : Nat := 0
  chunks_after_rerank : Nat := 0
  prompt_version : String := ""
deriving Repr, DecidableEq

/-- `HRPolicyChain._build_context`: provenance-labelled chunks joined by a
visible separator. -/
def build_context (documents : List Doc) : String :=
  String.intercalate "\n\n---\n\n" (documents.enum.map (fun p =>
    "[Document " ++ toString (p.1 + 1) ++ ": "
      ++ metaGet p.2.metadata "source" "Unknown"
      ++ ", Page " ++ metaGet p.2.metadata "page" "N/A" ++ "]\n"
      ++ p.2.page_content))

/-- `doc.metadata.get("source", "Unknown")`: the document name used both for
context headers and for source deduplication. -/
def srcName (d : Doc) : String := metaGet d.metadata "source" "Unknown"

/-- The source entry built for one document in `_extract_sources`. -/
def mkSourceEntry (d : Doc) : SourceEntry :=
  { document := srcName d,
    page := metaGet d.metadata "page" "N/A",
    file_type := metaGet d.metadata "file_type" "unknown" }

/-- The loop of `HRPolicyChain._extract_sources`: `seen` is the set of
document names already emitted (a list, since insertion order is irrelevant
to membership). -/
def extractSourcesGo : List Doc → List String → List SourceEntry
  | [], _ => []
  | d :: ds, seen =>
    if srcName d ∈ seen then extractSourcesGo ds seen
    else mkSourceEntry d :: extractSourcesGo ds (srcName d :: seen)

/-- `HRPolicyChain._extract_sources(documents)`. -/
def extract_sources (documents : List Doc) : List SourceEntry :=
  extractSourcesGo documents []

/-- Modelled from the spec (§4 step 4, "walk reranked chunks in rank order,
deduplicating by document name (first occurrence wins)"): the reference
recursion that keeps each document name's first chunk — with that chunk's
page and file_type — and drops every later chunk of the same document. -/
def dedupByFirstDocument : List Doc → List SourceEntry
  | [] => []
  | d :: ds =>
    mkSourceEntry d :: dedupByFirstDocument
      (ds.filter (fun d2 => srcName d2 ≠ srcName d))
termination_by l => l.length
decreasing_by
  simp only [List.length_cons]
  exact Nat.lt_succ_of_le (List.length_filter_le _ _)

/-- The fixed fallback answer of the no-knowledge path
(two adjacent Python string literals, concatenated). -/
def fallbackAnswer : String :=
  "I don\x27t have any policy documents loaded yet. "
    ++ "Please ask your HR team to upload the relevant policies."

/-- `HRPolicyChain.query(question)`.  Oracles: `store` is the ChromaDB
similarity search, `model` the cross-encoder scorer, `llm` the Gemini call
(which may fail — exceptions are `Except.error` and propagate to the
caller), `elapsed_ms` the measured wall-clock time; `prompt` and
`prompt_version` are the chain's fields set in `__init__`.  Mirrors the
source: retrieve with `k=settings.top_k_retrieval`; if nothing is retrieved
return the fallback `QueryResult` (only `answer`, `query` and `latency_ms`
set, all other fields left at their dataclass defaults); otherwise rerank
with `top_k=settings.top_k_rerank`, build context and sources, invoke the
generation model and assemble the full result. -/
def HRPolicyChain.query (st : Settings) (store : String → Nat → List Doc)
    (model : String → String → Int)
    (llm : List (String × String) → Except String LLMResponse)
    (prompt : ChatPromptTemplate) (prompt_version : String)
    (question : String) (elapsed_ms : Nat) : Except String QueryResult :=
  let retrieved_docs := similarity_search st store question (some st.top_k_retrieval)
  if retrieved_docs.isEmpty then
    Except.ok { answer := fallbackAnswer, query := question,
                latency_ms := elapsed_ms }
  else
    let reranked_docs := rerank_to_documents st model question retrieved_docs
      (some st.top_k_rerank)
    let context := build_context reranked_docs
    let sources := extract_sources reranked_docs
    match llm (formatMessages prompt context question) with
    | Except.error e => Except.error e
    | Except.ok response =>
      Except.ok
        { answer := response.content, sources := sources,
          query := question, latency_ms := elapsed_ms,
          tokens_used := response.usage_total_tokens.getD 0,
          chunks_retrieved := retrieved_docs.length,
          chunks_after_rerank := reranked_docs.length,
          prompt_version := prompt_version }

/-- **C3.** When retrieval returns zero chunks, `HRPolicyChain.query`
terminates in the no-knowledge state: it returns (`Except.ok`, so no
exception) a `QueryResult` whose answer is the fixed fallback text, whose
sources list is empty, whose `query` field echoes the question, with the
elapsed latency recorded and every other metric zero (and the
`prompt_version` field left at its empty default).  The conclusion holds
for arbitrary `model`, `llm` and `prompt` oracles and does not depend on
them, so reranking and generation are never invoked on this path. -/
theorem C3_no_knowledge (st : Settings) (store : String → Nat → List Doc)
    (model : String → String → Int)
    (llm : List (String × String) → Except String LLMResponse)
    (prompt : ChatPromptTemplate) (prompt_version : String)
    (question : String) (elapsed_ms : Nat)
    (h : similarity_search st store question (some st.top_k_retrieval) = []) :
    HRPolicyChain.query st store model llm prompt prompt_version question
        elapsed_ms
      = Except.ok
          { answer := fallbackAnswer, sources := [], query := question,
            latency_ms := elapsed_ms, tokens_used := 0, chunks_retrieved := 0,
            chunks_after_rerank := 0, prompt_version := "" } := by
  simp [HRPolicyChain.query, h]

/-- Witness for C3: an empty vector store, a concrete question. -/
theorem C3_no_knowledge_witness :
    similarity_search {} (fun _ _ => []) "What is the leave policy?"
        (some (Settings.top_k_retrieval {})) = []
    ∧ HRPolicyChain.query {} (fun _ _ => []) (fun _ _ => 0)
        (fun _ => Except.ok { content := "", usage_total_tokens := none })
        prompt_v2 "v2.0" "What is the leave policy?" 7
      = Except.ok
          { answer := fallbackAnswer, sources := [],
            query := "What is the leave policy?", latency_ms := 7,
            tokens_used := 0, chunks_retrieved := 0,
            chunks_after_rerank := 0, prompt_version := "" } :=
  ⟨rfl, C3_no_knowledge {} (fun _ _ => []) (fun _ _ => 0)
    (fun _ => Except.ok { content := "", usage_total_tokens := none })
    prompt_v2 "v2.0" "What is the leave policy?" 7 rfl⟩

theorem extractSourcesGo_eq_dedup (l : List Doc) : ∀ seen : List String,
    extractSourcesGo l seen
      = dedupByFirstDocument (l.filter (fun d => srcName d ∉ seen)) := by
  induction l with
  | nil =>
    intro seen
    rw [List.filter_nil]
    rw [show extractSourcesGo [] seen = [] from rfl, dedupByFirstDocument]
  | cons d ds ih =>
    intro seen
    by_cases hmem : srcName d ∈ seen
    · rw [extractSourcesGo, if_pos hmem, List.filter_cons,
        if_neg (by simpa using hmem)]
      exact ih seen
    · rw [extractSourcesGo, if_neg hmem, List.filter_cons,
        if_pos (by simpa using hmem), dedupByFirstDocument]
      have hfil : (ds.filter (fun d2 => srcName d2 ∉ seen)).filter
            (fun d2 => srcName d2 ≠ srcName d)
          = ds.filter (fun d2 => srcName d2 ∉ (srcName d :: seen)) := by
        rw [List.filter_filter]
        refine List.filter_congr ?_
        intro a _
        by_cases h1 : srcName a = srcName d
        · simp [h1]
        · by_cases h2 : srcName a ∈ seen
          · simp [h1, h2]
          · simp [h1, h2]
      rw [hfil, ih (srcName d :: seen)]

theorem mem_dedupByFirstDocument (l : List Doc) :
    ∀ s ∈ dedupByFirstDocument l, ∃ d ∈ l, s.document = srcName d := by
  induction l using dedupByFirstDocument.induct with
  | case1 => intro s hs; exact absurd hs (by simp [dedupByFirstDocument])
  | case2 d ds ih =>
    intro s hs
    rw [dedupByFirstDocument] at hs
    rcases List.mem_cons.mp hs with rfl | hs
    · exact ⟨d, List.mem_cons_self _ _, rfl⟩
    · rcases ih s hs with ⟨d2, hd2, hdoc⟩
      exact ⟨d2, List.mem_cons_of_mem _ (List.mem_of_mem_filter hd2), hdoc⟩

theorem dedupByFirstDocument_pairwise (l : List Doc) :
    (dedupByFirstDocument l).Pairwise (fun a b => a.document ≠ b.document) := by
  induction l using dedupByFirstDocument.induct with
  | case1 => simp [dedupByFirstDocument]
  | case2 d ds ih =>
    rw [dedupByFirstDocument]
    refine List.pairwise_cons.mpr ⟨?_, ih⟩
    intro b hb
    rcases mem_dedupByFirstDocument _ b hb with ⟨d2, hd2, hdoc⟩
    have hne : srcName d2 ≠ srcName d := by
      have := List.of_mem_filter hd2
      simpa using this
    rw [hdoc]
    simpa [mkSourceEntry] using fun hcontra => hne hcontra.symm

theorem dedupByFirstDocument_sublist (l : List Doc) :
    List.Sublist ((dedupByFirstDocument l).map (fun s => s.document))
      (l.map srcName) := by
  induction l using dedupByFirstDocument.induct with
  | case1 => simp [dedupByFirstDocument]
  | case2 d ds ih =>
    rw [dedupByFirstDocument, List.map_cons, List.map_cons]
    have hstep : List.Sublist
        ((ds.filter (fun d2 => srcName d2 ≠ srcName d)).map srcName)
        (ds.map srcName) := (List.filter_sublist ds).map srcName
    exact List.Sublist.cons₂ _ (ih.trans hstep)

/-- **C4.** For every list of reranked chunks, the derived sources list
(i) is exactly the spec's first-occurrence-wins walk (so each kept entry
carries the page and file_type of the highest-ranked chunk of its document,
and rank order is preserved among kept entries), (ii) never contains two
entries with the same `document` value, and (iii) its document column is a
subsequence of the chunks' document-name column (order preservation). -/
theorem C4_sources_dedup (documents : List Doc) :
    extract_sources documents = dedupByFirstDocument documents
    ∧ (extract_sources documents).Pairwise
        (fun a b => a.document ≠ b.document)
    ∧ List.Sublist ((extract_sources documents).map (fun s => s.document))
        (documents.map srcName) := by
  have heq : extract_sources documents = dedupByFirstDocument documents := by
    rw [extract_sources, extractSourcesGo_eq_dedup documents []]
    congr 1
    simp
  exact ⟨heq, heq ▸ dedupByFirstDocument_pairwise documents,
    heq ▸ dedupByFirstDocument_sublist documents⟩

/-! ## HTTP API (`src/api/server.py`) -/

/-- `QueryRequest`: question (validated to 3–1000 chars by Pydantic) and a
`prompt_version` field defaulting to "v2.0". -/
structure QueryRequest where
  question : String
  prompt_version : String := "v2.0"
deriving Repr, DecidableEq

/-- The `metrics` object assembled by `query_policies`. -/
structure Metrics where
  latency_ms : Nat
  tokens_used : Nat
  chunks_retrieved : Nat
  chunks_after_rerank : Nat
  prompt_version : String
deriving Repr, DecidableEq

/-- `QueryResponse`. -/
structure QueryResponse where
  answer : String
  sources : List SourceEntry
  metrics : Metrics
deriving Repr, DecidableEq

/-- `HRPolicyChain.__init__`'s default `prompt_version="v2.0"`: the server's
`lifespan` builds the global chain passing only `vector_store` and
`reranker`, so the running chain uses this version. -/
def startup_prompt_version : String := "v2.0"

/-- The chain's template, loaded in `__init__` via
`get_prompt(prompt_version)` (the error arm is unreachable: "v2.0" is
registered). -/
def startup_prompt : ChatPromptTemplate :=
  match (get_prompt PROMPT_VERSIONS startup_prompt_version).1 with
  | Except.ok t => t
  | Except.error _ => { messages := [] }

/-- `query_policies(request)`: runs the startup chain on `request.question`
— `request.prompt_version` is never read — and repackages the result; an
exception from the chain becomes an HTTP 500 (`Except.error`). -/
def query_policies (st : Settings) (store : String → Nat → List Doc)
    (model : String → String → Int)
    (llm : List (String × String) → Except String LLMResponse)
    (request : QueryRequest) (elapsed_ms : Nat) :
    Except String QueryResponse :=
  match HRPolicyChain.query st store model llm startup_prompt
      startup_prompt_version request.question elapsed_ms with
  | Except.error e => Except.error e
  | Except.ok result =>
    Except.ok
      { answer := result.answer, sources := result.sources,
        metrics :=
          { latency_ms := result.latency_ms,
            tokens_used := result.tokens_used,
            chunks_retrieved := result.chunks_retrieved,
            chunks_after_rerank := result.chunks_after_rerank,
            prompt_version := result.prompt_version } }

theorem pyOrDefault_self (k : Nat) : pyOrDefault (some k) k = k := by
  cases k <;> rfl

theorem query_ok_prompt_version (st : Settings) (store : String → Nat → List Doc)
    (model : String → String → Int)
    (llm : List (String × String) → Except String LLMResponse)
    (prompt : ChatPromptTemplate) (prompt_version : String)
    (question : String) (elapsed_ms : Nat) (r : QueryResult)
    (hne : store question st.top_k_retrieval ≠ [])
    (hok : HRPolicyChain.query st store model llm prompt prompt_version
        question elapsed_ms = Except.ok r) :
    r.prompt_version = prompt_version := by
  rw [HRPolicyChain.query] at hok
  rw [similarity_search, pyOrDefault_self] at hok
  have hemp : (store question st.top_k_retrieval).isEmpty = false := by
    cases h : store question st.top_k_retrieval with
    | nil => exact absurd h hne
    | cons a l => rfl
  rw [hemp] at hok
  simp only [Bool.false_eq_true, if_false] at hok
  cases hllm : llm (formatMessages prompt
      (build_context (rerank_to_documents st model question
        (store question st.top_k_retrieval) (some st.top_k_rerank)))
      question) with
  | error e =>
    rw [hllm] at hok
    exact absurd hok (by simp)
  | ok response =>
    rw [hllm] at hok
    have := (Except.ok.injEq _ _).mp hok
    rw [← this]

set_option maxRecDepth 40000 in
/-- **C1 (counterexample).** A valid `POST /query` request with
`prompt_version = "v1.0"` (a registered version) is answered by the server
with `metrics.prompt_version = "v2.0"`: the request's `prompt_version` does
not drive the Orchestrator, refuting the claim that the response's
`metrics.prompt_version` equals the requested version.  Concrete input: a
store holding one chunk, a generation model returning "20 days". -/
theorem C1_counterexample :
    (match query_policies {}
        (fun _ _ => [Doc.mk "Employees receive 20 days of PTO."
          [("source", "leave.pdf")]])
        (fun _ _ => 0)
        (fun _ => Except.ok { content := "20 days", usage_total_tokens := none })
        { question := "How many PTO days do employees get?",
          prompt_version := "v1.0" } 12 with
      | Except.ok resp => resp.metrics.prompt_version
      | Except.error _ => "") = "v2.0"
    ∧ ("v2.0" : String) ≠ "v1.0" := by
  refine ⟨rfl, by decide⟩

set_option maxRecDepth 40000 in
/-- **C1 (amended).** The request's `prompt_version` is accepted but
ignored: `query_policies` passes only `request.question` to the chain, so
(i) the response is identical for any two values of the field, and (ii)
whenever retrieval is non-empty and the chain succeeds, the response's
`metrics.prompt_version` equals the chain's startup version ("v2.0", the
`HRPolicyChain.__init__` default used by the server's lifespan wiring),
regardless of the requested version. -/
theorem C1_prompt_version_ignored (st : Settings)
    (store : String → Nat → List Doc) (model : String → String → Int)
    (llm : List (String × String) → Except String LLMResponse)
    (request : QueryRequest) (v : String) (elapsed_ms : Nat) :
    query_policies st store model llm
        { request with prompt_version := v } elapsed_ms
      = query_policies st store model llm request elapsed_ms
    ∧ (∀ resp : QueryResponse,
        query_policies st store model llm request elapsed_ms = Except.ok resp →
        store request.question st.top_k_retrieval ≠ [] →
        resp.metrics.prompt_version = startup_prompt_version) := by
  constructor
  · rfl
  · intro resp hok hne
    rw [query_policies] at hok
    cases hq : HRPolicyChain.query st store model llm startup_prompt
        startup_prompt_version request.question elapsed_ms with
    | error e =>
      rw [hq] at hok
      exact absurd hok (by simp)
    | ok result =>
      rw [hq] at hok
      have hv := query_ok_prompt_version st store model llm startup_prompt
        startup_prompt_version request.question elapsed_ms result hne hq
      have := (Except.ok.injEq _ _).mp hok
      rw [← this]
      exact hv

set_option maxRecDepth 40000 in
/-- Witness for the amended C1: at the concrete input of the
counterexample, the response's `metrics.prompt_version` is the startup
version. -/
theorem C1_prompt_version_ignored_witness :
    ({ answer := "20 days",
       sources := [{ document := "leave.pdf", page := "N/A",
                     file_type := "unknown" }],
       metrics := { latency_ms := 12, tokens_used := 0, chunks_retrieved := 1,
                    chunks_after_rerank := 1, prompt_version := "v2.0" } }
      : QueryResponse).metrics.prompt_version = startup_prompt_version :=
  (C1_prompt_version_ignored {}
    (fun _ _ => [Doc.mk "Employees receive 20 days of PTO."
      [("source", "leave.pdf")]])
    (fun _ _ => 0)
    (fun _ => Except.ok { content := "20 days", usage_total_tokens := none })
    { question := "How many PTO days do employees get?",
      prompt_version := "v1.0" } "v1.0" 12).2
    { answer := "20 days",
      sources := [{ document := "leave.pdf", page := "N/A",
                    file_type := "unknown" }],
      metrics := { latency_ms := 12, tokens_used := 0, chunks_retrieved := 1,
                   chunks_after_rerank := 1, prompt_version := "v2.0" } }
    rfl (by decide)

/-- Outcome of one `POST /upload` request. -/
inductive UploadOutcome where
  | success (filename : String) (chunks_created : Nat)
  | badExtension
  | ingestError (message : String)
  | unhandledError
deriving Repr, DecidableEq

/-- Result of the upload handler, paired with whether the temporary file
created for the upload is still on disk after the handler exits. -/
structure UploadResult where
  outcome : UploadOutcome
  tempFileRemains : Bool
deriving Repr, DecidableEq

/-- `allowed_extensions = {".pdf", ".docx", ".txt"}`. -/
def allowed_extensions : List String := [".pdf", ".docx", ".txt"]

/-- `upload_document(file)` control flow.  `copyOk` tells whether
`shutil.copyfileobj` returns normally (it can raise, e.g. when the client
disconnects mid-upload); `ingest` is the outcome of
`ingestor.ingest` + `vector_store.add_documents` (number of chunks, or an
exception).  Faithful to the source:
 * the extension check raises HTTP 400 before any temp file exists;
 * `NamedTemporaryFile(delete=False)` creates the temp file, and
   `tmp_path = tmp.name` is executed only after `copyfileobj` returns, so
   on a copy failure the local `tmp_path` is never assigned;
 * an ingestion exception is re-raised as HTTP 500;
 * the `finally` block runs `if os.path.exists(tmp_path): os.unlink(tmp_path)`
   — referencing `tmp_path`, which raises `UnboundLocalError` (an unhandled
   500 with no unlink) whenever `tmp_path` was never assigned. -/
def upload_document (ext filename : String) (copyOk : Bool)
    (ingest : Except String Nat) : UploadResult :=
  if ext ∉ allowed_extensions then
    { outcome := UploadOutcome.badExtension, tempFileRemains := false }
  else
    let tmp_path : Option Unit := if copyOk then some () else none
    let body : Except String UploadOutcome :=
      if copyOk then
        match ingest with
        | Except.ok n => Except.ok (UploadOutcome.success filename n)
        | Except.error e => Except.ok (UploadOutcome.ingestError e)
      else Except.error "exception raised by shutil.copyfileobj"
    match tmp_path with
    | some _ =>
        { outcome :=
            match body with
            | Except.ok o => o
            | Except.error _ => UploadOutcome.unhandledError,
          tempFileRemains := false }
    | none =>
        { outcome := UploadOutcome.unhandledError, tempFileRemains := true }

/-- **C8 (refuted — code bug).** The temp file is *not* removed on every
exit path: when `shutil.copyfileobj` raises while saving a valid upload,
`tmp_path` is unbound in the `finally` block, the cleanup itself dies with
`UnboundLocalError`, and the `NamedTemporaryFile(delete=False)` file leaks
(first two conjuncts).  The remaining conjuncts show the paths on which the
claim does hold: successful ingestion and an ingestion exception both
remove the file, and an invalid extension is rejected before any temp file
is created. -/
theorem C8_temp_cleanup_bug :
    (upload_document ".pdf" "policies.pdf" false (Except.ok 0)).tempFileRemains
        = true
    ∧ (upload_document ".pdf" "policies.pdf" false (Except.ok 0)).outcome
        = UploadOutcome.unhandledError
    ∧ (upload_document ".pdf" "policies.pdf" true (Except.ok 7)).tempFileRemains
        = false
    ∧ (upload_document ".pdf" "policies.pdf" true
        (Except.error "loader failed")).tempFileRemains = false
    ∧ (upload_document ".xlsx" "sheet.xlsx" true (Except.ok 0)).outcome
        = UploadOutcome.badExtension := by
  refine ⟨by decide, by decide, by decide, by decide, by decide⟩

/-! ## Slack adapter (`src/slack/bot.py`) -/

/-- The parameter names of `HRPolicyChain.query` besides `self`: the
signature is `def query(self, question: str)`. -/
def queryParamNames : List String := ["question"]

/-- Python call semantics for invoking the chain's `query` with keyword
arguments (as forwarded by `asyncio.to_thread(func, *args, **kwargs)`): if
some keyword name is not an accepted parameter the call raises `TypeError`
before the function body runs. -/
def callQueryWithKwargs (kwargNames : List String)
    (run : String → Except String QueryResult) (question : String) :
    Except String QueryResult :=
  if kwargNames.all (fun k => queryParamNames.contains k) then run question
  else Except.error "TypeError: query() got an unexpected keyword argument \x27chat_history\x27"

/-- The message sent back to the Slack user. -/
inductive SlackReply where
  | startupMessage
  | answered (text : String)
  | errorText (text : String)
deriving Repr, DecidableEq

/-- `handle_app_mentions(event, say)` (DMs reach the same function through
`handle_message_events`): if the chain is not yet initialised, reply with
the startup message; otherwise call
`_rag_chain.query(text, chat_history=history)` in a worker thread and
either post the answer or, on any exception `e`, update the placeholder
with the error text. -/
def handle_app_mentions (chainPresent : Bool)
    (runQuery : String → Except String QueryResult) (text : String) :
    SlackReply :=
  if !chainPresent then SlackReply.startupMessage
  else
    match callQueryWithKwargs ["chat_history"] runQuery text with
    | Except.ok result => SlackReply.answered result.answer
    | Except.error e =>
        SlackReply.errorText (":warning: Sorry, I encountered an error: " ++ e)

/-- **C10.** For every Slack mention or DM handled after startup (the chain
is present), the pipeline invocation fails: the handler passes the keyword
argument `chat_history`, which `HRPolicyChain.query` (accepting only
`question`) rejects with a `TypeError`, so the handler's exception path is
taken and the user receives the error message instead of an answer — for
every question text and regardless of what the pipeline would have
answered (second conjunct: the reply does not depend on the `runQuery`
oracle, which is never reached). -/
theorem C10_slack_chat_history_type_error
    (runQuery runQuery2 : String → Except String QueryResult) (text : String) :
    handle_app_mentions true runQuery text
      = SlackReply.errorText (":warning: Sorry, I encountered an error: "
          ++ "TypeError: query() got an unexpected keyword argument \x27chat_history\x27")
    ∧ handle_app_mentions true runQuery text
        = handle_app_mentions true runQuery2 text := by
  constructor
  · rfl
  · rfl

/-! ## Chunking policy (spec §4.1; `DocumentIngestor.split_documents` in
`src/rag/ingest.py`)

The repository delegates the actual text splitting to LangChain's
`RecursiveCharacterTextSplitter(chunk_size, chunk_overlap,
separators=["\n\n", "\n", ". ", " ", ""])`, which is third-party code not
contained in the repository; the splitting algorithm below is therefore
modelled from the spec's own description (§4.1): recursively attempt the
ordered separators, keep pieces within `chunk_size`, recombine adjacent
pieces up to `chunk_size`, and carry up to `chunk_overlap` trailing
characters of each emitted chunk into the next one.  Text is embedded as
`List Char` so that lengths, overlaps and concatenations are structural. -/

/-- The trailing `k` characters of `l` (the tail carried forward as the
chunk overlap). -/
def takeTail (k : Nat) (l : List Char) : List Char := l.drop (l.length - k)

/-- Modelled from the spec: split on one separator character, each piece
keeping its separator at the end (concatenating the pieces restores the
text). -/
def splitKeep (sep : Char) : List Char → List (List Char)
  | [] => []
  | c :: cs =>
    if c = sep then [c] :: splitKeep sep cs
    else
      match splitKeep sep cs with
      | [] => [[c]]
      | p :: ps => (c :: p) :: ps

/-- Modelled from the spec (§4.1): recursively split on the ordered
separator list, preferring the earliest separator; a piece within
`chunk_size` is kept, a longer one is split further with the remaining
separators; the final empty-string separator of the source's list is the
base case, splitting into single characters. -/
def recSplit (S : Nat) : List Char → List Char → List (List Char)
  | [], text => text.map (fun c => [c])
  | sep :: seps, text =>
    (splitKeep sep text).flatMap
      (fun p => if p.length ≤ S then [p] else recSplit S seps p)

/-- Modelled from the spec (§4.1): greedily recombine adjacent pieces up to
`chunk_size`; when emitting chunk *i*, start chunk *i+1* from the trailing
`chunk_overlap` characters of chunk *i* (clipped so the next piece still
fits within `chunk_size`). -/
def mergeChunks (S O : Nat) : List (List Char) → List Char → List (List Char)
  | [], cur => if cur.isEmpty then [] else [cur]
  | p :: ps, cur =>
    if cur.isEmpty then mergeChunks S O ps p
    else if cur.length + p.length ≤ S then mergeChunks S O ps (cur ++ p)
    else cur :: mergeChunks S O ps (takeTail (min O (S - p.length)) cur ++ p)

/-- Modelled from the spec: split one text into chunks. -/
def splitText (S O : Nat) (seps : List Char) (text : List Char) :
    List (List Char) :=
  mergeChunks S O (recSplit S seps text) []

/-- A loaded document before splitting. -/
structure RawDocument where
  text : List Char
  metadata : List (String × String)
deriving Repr, DecidableEq

/-- A chunk produced by splitting. -/
structure Chunk where
  text : List Char
  metadata : List (String × String)
deriving Repr, DecidableEq

/-- `DocumentIngestor.split_documents(documents)`: split each document and
give every resulting chunk the source document's metadata map unchanged. -/
def split_documents (S O : Nat) (seps : List Char)
    (documents : List RawDocument) : List Chunk :=
  documents.flatMap (fun d =>
    (splitText S O seps d.text).map (fun c => Chunk.mk c d.metadata))

/-- Consecutive chunks are overlap-linked: the later chunk begins with up
to `O` trailing characters of the earlier chunk. -/
def OverlapLinked (O : Nat) (a b : List Char) : Prop :=
  ∃ k rest, k ≤ O ∧ b = takeTail k a ++ rest

theorem takeTail_length_le (k : Nat) (l : List Char) :
    (takeTail k l).length ≤ k := by
  simp only [takeTail, List.length_drop]
  omega

theorem splitKeep_ne_nil (sep : Char) (t : List Char) :
    ∀ p ∈ splitKeep sep t, p ≠ [] := by
  induction t with
  | nil => intro p hp; exact absurd hp (by simp [splitKeep])
  | cons c cs ih =>
    intro p hp
    rw [splitKeep] at hp
    by_cases hc : c = sep
    · rw [if_pos hc] at hp
      rcases List.mem_cons.mp hp with rfl | hp
      · simp
      · exact ih p hp
    · rw [if_neg hc] at hp
      cases hsk : splitKeep sep cs with
      | nil =>
        rw [hsk] at hp
        rcases List.mem_cons.mp hp with rfl | hp
        · simp
        · exact absurd hp (by simp)
      | cons q qs =>
        rw [hsk] at hp
        rcases List.mem_cons.mp hp with rfl | hp
        · simp
        · exact ih p (by rw [hsk]; exact List.mem_cons_of_mem _ hp)

theorem recSplit_ne_nil (S : Nat) (seps : List Char) :
    ∀ t : List Char, ∀ p ∈ recSplit S seps t, p ≠ [] := by
  induction seps with
  | nil =>
    intro t p hp
    rcases List.mem_map.mp hp with ⟨c, _, rfl⟩
    simp
  | cons sep seps ih =>
    intro t p hp
    rw [recSplit] at hp
    rcases List.mem_flatMap.mp hp with ⟨q, hq, hpq⟩
    by_cases hql : q.length ≤ S
    · rw [if_pos hql] at hpq
      rcases List.mem_singleton.mp hpq with rfl
      exact splitKeep_ne_nil sep t p hq
    · rw [if_neg hql] at hpq
      exact ih q p hpq

theorem recSplit_length_le (S : Nat) (hS : 1 ≤ S) (seps : List Char) :
    ∀ t : List Char, ∀ p ∈ recSplit S seps t, p.length ≤ S := by
  induction seps with
  | nil =>
    intro t p hp
    rcases List.mem_map.mp hp with ⟨c, _, rfl⟩
    simpa using hS
  | cons sep seps ih =>
    intro t p hp
    rw [recSplit] at hp
    rcases List.mem_flatMap.mp hp with ⟨q, hq, hpq⟩
    by_cases hql : q.length ≤ S
    · rw [if_pos hql] at hpq
      rcases List.mem_singleton.mp hpq with rfl
      exact hql
    · rw [if_neg hql] at hpq
      exact ih q p hpq

theorem mergeChunks_length_le (S O : Nat) (pieces : List (List Char)) :
    ∀ cur : List Char, (∀ p ∈ pieces, p.length ≤ S) → cur.length ≤ S →
      ∀ c ∈ mergeChunks S O pieces cur, c.length ≤ S := by
  induction pieces with
  | nil =>
    intro cur _ hcur c hc
    rw [mergeChunks] at hc
    by_cases he : cur.isEmpty
    · rw [if_pos he] at hc
      exact absurd hc (by simp)
    · rw [if_neg he] at hc
      rcases List.mem_singleton.mp hc with rfl
      exact hcur
  | cons p ps ih =>
    intro cur hpieces hcur c hc
    have hp : p.length ≤ S := hpieces p (List.mem_cons_self _ _)
    have hps : ∀ q ∈ ps, q.length ≤ S :=
      fun q hq => hpieces q (List.mem_cons_of_mem _ hq)
    rw [mergeChunks] at hc
    by_cases he : cur.isEmpty
    · rw [if_pos he] at hc
      exact ih p hps hp c hc
    · rw [if_neg he] at hc
      by_cases hfit : cur.length + p.length ≤ S
      · rw [if_pos hfit] at hc
        exact ih (cur ++ p) hps (by simpa using hfit) c hc
      · rw [if_neg hfit] at hc
        rcases List.mem_cons.mp hc with rfl | hc
        · exact hcur
        · refine ih _ hps ?_ c hc
          have h1 := takeTail_length_le (min O (S - p.length)) cur
          simp only [List.length_append]
          omega

theorem mergeChunks_head_extends (S O : Nat) (pieces : List (List Char)) :
    ∀ cur : List Char, cur ≠ [] →
      ∃ ext tail, mergeChunks S O pieces cur = (cur ++ ext) :: tail := by
  induction pieces with
  | nil =>
    intro cur hcur
    refine ⟨[], [], ?_⟩
    rw [mergeChunks, if_neg (by simpa using hcur)]
    simp
  | cons p ps ih =>
    intro cur hcur
    rw [mergeChunks, if_neg (by simpa using hcur)]
    by_cases hfit : cur.length + p.length ≤ S
    · rw [if_pos hfit]
      rcases ih (cur ++ p) (by simp [hcur]) with ⟨ext, tail, heq⟩
      exact ⟨p ++ ext, tail, by rw [heq, List.append_assoc]⟩
    · rw [if_neg hfit]
      refine ⟨[], mergeChunks S O ps (takeTail (min O (S - p.length)) cur ++ p), ?_⟩
      simp

theorem mergeChunks_chain (S O : Nat) (pieces : List (List Char)) :
    ∀ cur : List Char, (∀ p ∈ pieces, p ≠ []) →
      List.Chain' (OverlapLinked O) (mergeChunks S O pieces cur) := by
  induction pieces with
  | nil =>
    intro cur _
    rw [mergeChunks]
    by_cases he : cur.isEmpty
    · rw [if_pos he]; exact List.chain'_nil
    · rw [if_neg he]; exact List.chain'_singleton cur
  | cons p ps ih =>
    intro cur hpieces
    have hp : p ≠ [] := hpieces p (List.mem_cons_self _ _)
    have hps : ∀ q ∈ ps, q ≠ [] :=
      fun q hq => hpieces q (List.mem_cons_of_mem _ hq)
    rw [mergeChunks]
    by_cases he : cur.isEmpty
    · rw [if_pos he]
      exact ih p hps
    · rw [if_neg he]
      by_cases hfit : cur.length + p.length ≤ S
      · rw [if_pos hfit]
        exact ih (cur ++ p) hps
      · rw [if_neg hfit]
        have hnew : takeTail (min O (S - p.length)) cur ++ p ≠ [] := by
          intro hcontra
          exact hp (List.append_eq_nil.mp hcontra).2
        refine List.chain'_cons'.mpr ⟨?_, ih _ hps⟩
        intro b hb
        rcases mergeChunks_head_extends S O ps _ hnew with ⟨ext, tail, heq⟩
        rw [heq] at hb
        simp only [List.head?_cons, Option.mem_def, Option.some.injEq] at hb
        refine ⟨min O (S - p.length), p ++ ext, min_le_left _ _, ?_⟩
        rw [← hb, List.append_assoc]

/-- **C5.** For every chunk size `S` and overlap `O` with `0 ≤ O < S`,
splitting any list of documents yields (i) chunks each of length `≤ S`
(the spec's separator-boundary tolerance is not needed: the source's final
empty-string separator lets every over-long piece be split down to
characters), (ii) for each source document an overlap-linked chunk
sequence — each chunk after the first begins with up to `O` trailing
characters of its predecessor — and (iii) every chunk inheriting its
source document's full metadata map unchanged. -/
theorem C5_split_documents_spec (S O : Nat) (seps : List Char)
    (documents : List RawDocument) (hO : O < S) :
    (∀ ch ∈ split_documents S O seps documents, ch.text.length ≤ S)
    ∧ (∀ d ∈ documents,
        List.Chain' (OverlapLinked O) (splitText S O seps d.text))
    ∧ (∀ ch ∈ split_documents S O seps documents,
        ∃ d ∈ documents, ch.metadata = d.metadata
          ∧ ch.text ∈ splitText S O seps d.text) := by
  have hS : 1 ≤ S := Nat.lt_of_le_of_lt (Nat.zero_le O) hO
  refine ⟨?_, ?_, ?_⟩
  · intro ch hch
    rcases List.mem_flatMap.mp hch with ⟨d, _, hc⟩
    rcases List.mem_map.mp hc with ⟨c, hcmem, rfl⟩
    exact mergeChunks_length_le S O (recSplit S seps d.text) []
      (recSplit_length_le S hS seps d.text) (by simp) c hcmem
  · intro d _
    exact mergeChunks_chain S O (recSplit S seps d.text) []
      (recSplit_ne_nil S seps d.text)
  · intro ch hch
    rcases List.mem_flatMap.mp hch with ⟨d, hd, hc⟩
    rcases List.mem_map.mp hc with ⟨c, hcmem, rfl⟩
    exact ⟨d, hd, rfl, hcmem⟩

/-- Witness for C5: `chunk_size = 5`, `chunk_overlap = 2`, separators
newline and space, one 26-character document. -/
theorem C5_split_documents_spec_witness :
    (2 < 5)
    ∧ (∀ ch ∈ split_documents 5 2 [Char.ofNat 10, Char.ofNat 32]
        [RawDocument.mk
          "the quick brown fox jumped".toList [("source", "n.txt")]],
        ch.text.length ≤ 5) :=
  ⟨by decide,
    (C5_split_documents_spec 5 2 [Char.ofNat 10, Char.ofNat 32]
      [RawDocument.mk
        "the quick brown fox jumped".toList [("source", "n.txt")]]
      (by decide)).1⟩

end HRAgent
